import Mathlib

/-!
Shallow embedding of the mp3-cutter audio engine
(`services/audioUtils.ts`, `components/WaveformEditor.tsx`, `App.tsx`).

JavaScript `number` arithmetic is modelled over `ℚ`; `Float32Array`
channel data becomes `List ℚ`; out-of-range reads (`undefined || 0`,
comparisons with `undefined`) are modelled through `Option` lookups.
-/

/-- In-memory audio buffer: the Web Audio `AudioBuffer` as used by the code.
`data` is the per-channel sample storage backing `getChannelData`. -/
structure AudioBuffer where
  numberOfChannels : ℕ
  length : ℕ
  sampleRate : ℕ
  data : List (List ℚ)
deriving DecidableEq

/-- Well-formedness invariant of an `AudioBuffer` (spec section 3): one stored
channel per declared channel, every channel of the declared frame count,
at least one channel. -/
def WF (b : AudioBuffer) : Prop :=
  b.data.length = b.numberOfChannels ∧
  (∀ ch ∈ b.data, ch.length = b.length) ∧
  1 ≤ b.numberOfChannels

instance (b : AudioBuffer) : Decidable (WF b) := by
  unfold WF; infer_instance

/-- `context.createBuffer(channels, frames, rate)`: all samples initialized
to silence. -/
def createBuffer (channels frames rate : ℕ) : AudioBuffer :=
  ⟨channels, frames, rate, List.replicate channels (List.replicate frames 0)⟩

/-- `buffer.getChannelData(i)` as a list (missing channel reads as empty). -/
def channelData (b : AudioBuffer) (i : ℕ) : List ℚ :=
  (b.data.get? i).getD []

/-- Reading `getChannelData(i)[j]` with the `|| 0` coercion used by the code:
any out-of-range index yields `0`. -/
def getSample (b : AudioBuffer) (i : ℕ) (j : ℤ) : ℚ :=
  if j < 0 then 0 else ((channelData b i).get? j.toNat).getD 0

/-- Truncation toward zero: the `| 0` conversion of JavaScript applied to a
number in `int32` range. -/
def truncToInt (q : ℚ) : ℤ :=
  if q < 0 then -⌊-q⌋ else ⌊q⌋

/-- One sample of the PCM conversion in `bufferToWav`:
`sample = Math.max(-1, Math.min(1, s));`
`sample = (0.5 + sample < 0 ? sample * 32768 : sample * 32767) | 0;` -/
def sampleToPCM (s : ℚ) : ℤ :=
  truncToInt
    (if 1/2 + max (-1) (min 1 s) < 0
     then max (-1) (min 1 s) * 32768
     else max (-1) (min 1 s) * 32767)

/-- The conversion as claim C1 words it: scale by `32768` whenever the clamped
sample is negative, by `32767` otherwise. -/
def sampleToPCMClaimed (s : ℚ) : ℤ :=
  truncToInt
    (if max (-1) (min 1 s) < 0
     then max (-1) (min 1 s) * 32768
     else max (-1) (min 1 s) * 32767)

/-- The conversion as the code actually behaves, stated from the amended claim:
scale by `32768` only when the clamped sample is below `-1/2`. -/
def sampleToPCMAmended (s : ℚ) : ℤ :=
  truncToInt
    (if max (-1) (min 1 s) < -(1/2)
     then max (-1) (min 1 s) * 32768
     else max (-1) (min 1 s) * 32767)

/-- One step of the min/max scan in the waveform draw effect:
`if (datum < min) min = datum; if (datum > max) max = datum;`.
An out-of-range read is `undefined`; both comparisons with `undefined`
are false, so the accumulator is left unchanged. -/
def peakStep (mm : ℚ × ℚ) (d : Option ℚ) : ℚ × ℚ :=
  match d with
  | none => mm
  | some datum =>
      (if datum < mm.1 then datum else mm.1,
       if datum > mm.2 then datum else mm.2)

/-- Inner loop of the waveform draw effect for pixel column `i`:
`min` starts at `1.0`, `max` at `-1.0`, scanning `data[(i*step)+j]`
for `j` in `[0, step)`. -/
def peakColumn (data : List ℚ) (step i : ℕ) : ℚ × ℚ :=
  (List.range step).foldl (fun mm j => peakStep mm (data.get? (i * step + j))) (1, -1)

/-- The waveform peak reduction of `WaveformEditor`:
`step = Math.ceil(data.length / containerWidth)` and one `(min, max)`
column per pixel `i` in `[0, containerWidth)`. -/
def waveformPeaks (data : List ℚ) (width : ℕ) : List (ℚ × ℚ) :=
  (List.range width).map (fun i => peakColumn data ((data.length + width - 1) / width) i)

/-- The samples of column `i`'s window that actually exist in the buffer. -/
def peakWindow (data : List ℚ) (width i : ℕ) : List ℚ :=
  (data.drop (i * ((data.length + width - 1) / width))).take
    ((data.length + width - 1) / width)

/-- Folding the scan step over an explicit sample list. -/
def windowFold (w : List ℚ) (mm : ℚ × ℚ) : ℚ × ℚ :=
  w.foldl (fun mm d => peakStep mm (some d)) mm

/-- `sliceAudioBuffer(buffer, start, end, context)`:
`startSample = Math.floor(start * sampleRate)`,
`endSample = Math.floor(end * sampleRate)`, `frameCount` their difference;
a non-positive `frameCount` yields the 1-frame fallback buffer, otherwise
each output frame `j` of channel `i` reads `channelData[startSample + j] || 0`. -/
def sliceAudioBuffer (buffer : AudioBuffer) (start endT : ℚ) : AudioBuffer :=
  if ⌊endT * (buffer.sampleRate : ℚ)⌋ - ⌊start * (buffer.sampleRate : ℚ)⌋ ≤ 0 then
    createBuffer buffer.numberOfChannels 1 buffer.sampleRate
  else
    { numberOfChannels := buffer.numberOfChannels
      length := (⌊endT * (buffer.sampleRate : ℚ)⌋ - ⌊start * (buffer.sampleRate : ℚ)⌋).toNat
      sampleRate := buffer.sampleRate
      data := (List.range buffer.numberOfChannels).map fun i =>
        (List.range
            (⌊endT * (buffer.sampleRate : ℚ)⌋ - ⌊start * (buffer.sampleRate : ℚ)⌋).toNat).map
          fun (j : ℕ) => getSample buffer i (⌊start * (buffer.sampleRate : ℚ)⌋ + (j : ℤ)) }

/-- Channel selection in `joinAudioBuffers`:
`buffer.numberOfChannels > i ? buffer.getChannelData(i) : buffer.getChannelData(0)`. -/
def sourceChannelData (b : AudioBuffer) (i : ℕ) : List ℚ :=
  if i < b.numberOfChannels then channelData b i else channelData b 0

/-- `joinAudioBuffers(buffers, context)`: the empty list yields
`createBuffer(1, 1, 44100)`; otherwise channel count is the maximum over the
inputs, length their sum, sample rate the first input's, and each output
channel is the inputs' selected channels laid out consecutively. -/
def joinAudioBuffers (buffers : List AudioBuffer) : AudioBuffer :=
  match buffers with
  | [] => createBuffer 1 1 44100
  | b0 :: rest =>
    { numberOfChannels := ((b0 :: rest).map (fun b => b.numberOfChannels)).foldl max 0
      length := ((b0 :: rest).map (fun b => b.length)).sum
      sampleRate := b0.sampleRate
      data :=
        (List.range (((b0 :: rest).map (fun b => b.numberOfChannels)).foldl max 0)).map
          fun i => ((b0 :: rest).map (fun b => sourceChannelData b i)).join }

/-- Number of output frames contributed by the inputs before index `k`. -/
def offsetBefore (bs : List AudioBuffer) (k : ℕ) : ℕ :=
  ((bs.take k).map (fun b => b.length)).sum

/-- The selection range of `types.ts`: `{ start, end }` in seconds
(`endT` models the `end` field). -/
structure Selection where
  start : ℚ
  endT : ℚ
deriving DecidableEq

/-- Which handle a pointer drag moves (`isDragging` being `start` or `end`). -/
inductive DragTarget
  | startHandle
  | endHandle
deriving DecidableEq

/-- `handlePointerMove` of `WaveformEditor` during a drag: the dragged
boundary is recomputed from the pointer time with `minDuration = 0.1`,
clamping `newStart = Math.max(0, time)` down to `selection.end - 0.1` and
`newEnd = Math.min(duration, time)` up to `selection.start + 0.1`. -/
def handlePointerMove (duration : ℚ) (sel : Selection) (drag : DragTarget) (time : ℚ) :
    Selection :=
  match drag with
  | DragTarget.startHandle =>
    { sel with start :=
        if (max 0 time ≥ sel.endT - 1/10) then sel.endT - 1/10 else max 0 time }
  | DragTarget.endHandle =>
    { sel with endT :=
        if (min duration time ≤ sel.start + 1/10) then sel.start + 1/10
        else min duration time }

/-- `togglePlayPause` when not playing (`App.tsx`): the playback offset is
the current time unless it sits outside `[selection.start, selection.end)`,
in which case it resets to `selection.start`. -/
def togglePlayStart (sel : Selection) (currentTime : ℚ) : ℚ :=
  if currentTime ≥ sel.endT ∨ currentTime < sel.start then sel.start else currentTime

/-- The `startPos` check at the top of `playAudio(offset)`. -/
def playAudioStartPos (sel : Selection) (offset : ℚ) : ℚ :=
  if offset < sel.start ∨ offset ≥ sel.endT then sel.start else offset

/-- The range emitted by `source.start(0, startPos, selection.end - startPos)`. -/
def playAudioRange (sel : Selection) (offset : ℚ) : ℚ × ℚ :=
  (playAudioStartPos sel offset,
   playAudioStartPos sel offset + (sel.endT - playAudioStartPos sel offset))

/-- A produced clip (`types.ts`): identifier, display name, owned buffer,
and the cached encoded payload (modelled by the interleaved PCM data that
`bufferToWav` writes after the 44-byte header). -/
structure Clip where
  id : String
  name : String
  buffer : AudioBuffer
  blob : List ℤ
deriving DecidableEq

/-- The interleaved sample data of `bufferToWav`: one frame at a time,
channels in order, each sample through the PCM conversion. -/
def wavDataChunk (b : AudioBuffer) : List ℤ :=
  ((List.range b.length).map fun pos =>
    (List.range b.numberOfChannels).map fun i => sampleToPCM (getSample b i (pos : ℤ))).join

/-- `handleCut` (registry part): slice the selection, encode it, and append a
clip whose identifier is `Date.now().toString()` at the cut instant and whose
name is the precomputed `<base>_cut_<HHMMSS>` string. -/
def handleCut (clips : List Clip) (mainBuffer : AudioBuffer) (sel : Selection)
    (nowMs : ℕ) (newName : String) : List Clip :=
  clips ++ [{ id := toString nowMs
              name := newName
              buffer := sliceAudioBuffer mainBuffer sel.start sel.endT
              blob := wavDataChunk (sliceAudioBuffer mainBuffer sel.start sel.endT) }]

/-- `deleteClip`: `clips.filter(c => c.id !== id)`. -/
def deleteClip (clips : List Clip) (id : String) : List Clip :=
  clips.filter fun c => c.id != id

/-- `renameClip`: `clips.map(c => c.id === id ? { ...c, name } : c)`. -/
def renameClip (clips : List Clip) (id newName : String) : List Clip :=
  clips.map fun c => if c.id = id then { c with name := newName } else c

lemma range_foldl_peakStep (data : List ℚ) (s : ℕ) :
    ∀ (n : ℕ) (init : ℚ × ℚ),
    (List.range n).foldl (fun mm j => peakStep mm (data.get? (s + j))) init =
      windowFold ((data.drop s).take n) init := by
  intro n
  induction n with
  | zero => intro init; simp [windowFold]
  | succ n ih =>
    intro init
    rw [List.range_succ, List.foldl_append, ih, List.take_succ]
    unfold windowFold
    rw [List.foldl_append, List.getElem?_drop]
    simp only [List.foldl_cons, List.foldl_nil, List.get?_eq_getElem?]
    cases hd : data[s + n]? with
    | none => simp [hd, peakStep]
    | some d => simp [hd]

lemma windowFold_fst (w : List ℚ) : ∀ ab : ℚ × ℚ,
    (windowFold w ab).1 = w.foldl (fun m d => if d < m then d else m) ab.1 := by
  induction w with
  | nil => intro ab; rfl
  | cons d w ih =>
    intro ab
    unfold windowFold at ih ⊢
    simp only [List.foldl_cons]
    rw [ih]
    rfl

lemma windowFold_snd (w : List ℚ) : ∀ ab : ℚ × ℚ,
    (windowFold w ab).2 = w.foldl (fun m d => if d > m then d else m) ab.2 := by
  induction w with
  | nil => intro ab; rfl
  | cons d w ih =>
    intro ab
    unfold windowFold at ih ⊢
    simp only [List.foldl_cons]
    rw [ih]
    rfl

lemma foldl_minStep_spec (w : List ℚ) : ∀ a : ℚ,
    (w.foldl (fun m d => if d < m then d else m) a = a ∨
     w.foldl (fun m d => if d < m then d else m) a ∈ w) ∧
    w.foldl (fun m d => if d < m then d else m) a ≤ a ∧
    ∀ x ∈ w, w.foldl (fun m d => if d < m then d else m) a ≤ x := by
  induction w with
  | nil => intro a; refine ⟨Or.inl rfl, le_refl a, by simp⟩
  | cons d w ih =>
    intro a
    simp only [List.foldl_cons]
    obtain ⟨hmem, hle, hall⟩ := ih (if d < a then d else a)
    have hle_a : (if d < a then d else a) ≤ a := by
      split <;> [exact le_of_lt (by assumption); exact le_refl a]
    have hle_d : (if d < a then d else a) ≤ d := by
      split <;> [exact le_refl d; exact le_of_not_lt (by assumption)]
    refine ⟨?_, le_trans hle hle_a, ?_⟩
    · rcases hmem with h | h
      · rw [h]
        split
        · exact Or.inr (List.mem_cons_self d w)
        · exact Or.inl rfl
      · exact Or.inr (List.mem_cons_of_mem d h)
    · intro x hx
      rcases List.mem_cons.mp hx with rfl | hx
      · exact le_trans hle hle_d
      · exact hall x hx

lemma foldl_maxStep_spec (w : List ℚ) : ∀ a : ℚ,
    (w.foldl (fun m d => if d > m then d else m) a = a ∨
     w.foldl (fun m d => if d > m then d else m) a ∈ w) ∧
    a ≤ w.foldl (fun m d => if d > m then d else m) a ∧
    ∀ x ∈ w, x ≤ w.foldl (fun m d => if d > m then d else m) a := by
  induction w with
  | nil => intro a; refine ⟨Or.inl rfl, le_refl a, by simp⟩
  | cons d w ih =>
    intro a
    simp only [List.foldl_cons]
    obtain ⟨hmem, hle, hall⟩ := ih (if d > a then d else a)
    have ha_le : a ≤ (if d > a then d else a) := by
      split <;> [exact le_of_lt (by assumption); exact le_refl a]
    have hd_le : d ≤ (if d > a then d else a) := by
      split <;> [exact le_refl d; exact le_of_not_lt (by assumption)]
    refine ⟨?_, le_trans ha_le hle, ?_⟩
    · rcases hmem with h | h
      · rw [h]
        split
        · exact Or.inr (List.mem_cons_self d w)
        · exact Or.inl rfl
      · exact Or.inr (List.mem_cons_of_mem d h)
    · intro x hx
      rcases List.mem_cons.mp hx with rfl | hx
      · exact le_trans hd_le hle
      · exact hall x hx

lemma floor_diff_round_le (A B : ℚ) : |⌊A⌋ - ⌊B⌋ - round (A - B)| ≤ 1 := by
  have hA1 : ((⌊A⌋ : ℤ) : ℚ) ≤ A := Int.floor_le A
  have hA2 : A < ⌊A⌋ + 1 := Int.lt_floor_add_one A
  have hB1 : ((⌊B⌋ : ℤ) : ℚ) ≤ B := Int.floor_le B
  have hB2 : B < ⌊B⌋ + 1 := Int.lt_floor_add_one B
  have hRdef : round (A - B) = ⌊A - B + 1/2⌋ := round_eq (A - B)
  have hR1 : ((⌊A - B + 1/2⌋ : ℤ) : ℚ) ≤ A - B + 1/2 := Int.floor_le _
  have hR2 : A - B + 1/2 < ⌊A - B + 1/2⌋ + 1 := Int.lt_floor_add_one _
  rw [hRdef, abs_le]
  constructor
  · have hq : (-2 : ℚ) < ((⌊A⌋ - ⌊B⌋ - ⌊A - B + 1/2⌋ : ℤ) : ℚ) := by push_cast; linarith
    have hz : (-2 : ℤ) < ⌊A⌋ - ⌊B⌋ - ⌊A - B + 1/2⌋ := by exact_mod_cast hq
    omega
  · have hq : ((⌊A⌋ - ⌊B⌋ - ⌊A - B + 1/2⌋ : ℤ) : ℚ) < 2 := by push_cast; linarith
    have hz : (⌊A⌋ - ⌊B⌋ - ⌊A - B + 1/2⌋ : ℤ) < 2 := by exact_mod_cast hq
    omega

lemma getSample_createBuffer (channels frames rate c : ℕ) (j : ℤ) :
    getSample (createBuffer channels frames rate) c j = 0 := by
  unfold getSample channelData createBuffer
  by_cases hj : j < 0
  · rw [if_pos hj]
  · rw [if_neg hj]
    cases hget : (List.replicate channels (List.replicate frames (0 : ℚ))).get? c with
    | none => simp [hget]
    | some ch =>
      have hch : ch = List.replicate frames 0 := List.eq_of_mem_replicate (List.get?_mem hget)
      subst hch
      cases hg2 : (List.replicate frames (0 : ℚ)).get? j.toNat with
      | none => simp [hget, hg2]
      | some x =>
        have hx : x = 0 := List.eq_of_mem_replicate (List.get?_mem hg2)
        simp [hget, hg2, hx]

lemma slice_read (b : AudioBuffer) (s e : ℚ) (c j : ℕ)
    (hc : c < b.numberOfChannels)
    (hj : (j : ℤ) < ⌊e * (b.sampleRate : ℚ)⌋ - ⌊s * (b.sampleRate : ℚ)⌋) :
    getSample (sliceAudioBuffer b s e) c (j : ℤ) =
      getSample b c (⌊s * (b.sampleRate : ℚ)⌋ + (j : ℤ)) := by
  have hfc : ¬ (⌊e * (b.sampleRate : ℚ)⌋ - ⌊s * (b.sampleRate : ℚ)⌋ ≤ 0) := by
    have : (0 : ℤ) ≤ (j : ℤ) := Int.natCast_nonneg j
    omega
  have hjn : j < (⌊e * (b.sampleRate : ℚ)⌋ - ⌊s * (b.sampleRate : ℚ)⌋).toNat := by omega
  unfold sliceAudioBuffer
  rw [if_neg hfc]
  unfold getSample channelData
  rw [if_neg (by omega : ¬ ((j : ℤ) < 0))]
  rw [Int.toNat_natCast, List.get?_map, List.get?_range hc]
  simp only [Option.map_some', Option.getD_some]
  rw [List.get?_map, List.get?_range hjn]
  simp only [Option.map_some', Option.getD_some]

lemma getSample_out_of_range (b : AudioBuffer) (hwf : WF b) (c : ℕ) (idx : ℤ)
    (h : ¬ (0 ≤ idx ∧ idx < (b.length : ℤ))) : getSample b c idx = 0 := by
  unfold getSample channelData
  by_cases hneg : idx < 0
  · rw [if_pos hneg]
  · rw [if_neg hneg]
    have hge : (b.length : ℤ) ≤ idx := by omega
    cases hget : b.data.get? c with
    | none => simp [hget]
    | some ch =>
      have hlen : ch.length = b.length := hwf.2.1 ch (List.get?_mem hget)
      have hnone : ch.get? idx.toNat = none := by
        rw [List.get?_eq_none]
        omega
      rw [List.get?_eq_getElem?] at hnone
      simp [hget, hnone]

lemma foldl_max_spec (l : List ℕ) : ∀ a : ℕ,
    (l.foldl max a = a ∨ l.foldl max a ∈ l) ∧
    a ≤ l.foldl max a ∧ ∀ x ∈ l, x ≤ l.foldl max a := by
  induction l with
  | nil => intro a; refine ⟨Or.inl rfl, le_refl a, by simp⟩
  | cons d l ih =>
    intro a
    simp only [List.foldl_cons]
    obtain ⟨hmem, hle, hall⟩ := ih (max a d)
    refine ⟨?_, le_trans (le_max_left a d) hle, ?_⟩
    · rcases hmem with h | h
      · rw [h]
        rcases Nat.le_total a d with had | hda
        · rw [max_eq_right had]
          exact Or.inr (List.mem_cons_self d l)
        · rw [max_eq_left hda]
          exact Or.inl rfl
      · exact Or.inr (List.mem_cons_of_mem d h)
    · intro x hx
      rcases List.mem_cons.mp hx with rfl | hx
      · exact le_trans (le_max_right a x) hle
      · exact hall x hx

lemma join_get?_at {α : Type} : ∀ (L : List (List α)) (k : ℕ) (hk : k < L.length) (j : ℕ),
    j < (L.get ⟨k, hk⟩).length →
    L.join.get? (((L.take k).map List.length).sum + j) = (L.get ⟨k, hk⟩).get? j := by
  intro L
  induction L with
  | nil => intro k hk; exact absurd hk (by simp)
  | cons x xs ih =>
    intro k hk j hj
    cases k with
    | zero =>
      simp only [List.take_zero, List.map_nil, List.sum_nil, Nat.zero_add, List.join_cons]
      exact List.get?_append hj
    | succ k =>
      have hk' : k < xs.length := Nat.lt_of_succ_lt_succ hk
      simp only [List.take_succ_cons, List.map_cons, List.sum_cons, List.join_cons]
      have hidx : x.length ≤ x.length + ((xs.take k).map List.length).sum + j := by omega
      rw [Nat.add_assoc, List.get?_append_right (by omega), Nat.add_sub_cancel_left]
      exact ih k hk' j hj

lemma sourceChannelData_length (b : AudioBuffer) (hwf : WF b) (i : ℕ) :
    (sourceChannelData b i).length = b.length := by
  obtain ⟨hlen, hch, hpos⟩ := hwf
  unfold sourceChannelData channelData
  by_cases hi : i < b.numberOfChannels
  · rw [if_pos hi]
    cases hget : b.data.get? i with
    | none =>
      rw [List.get?_eq_none] at hget
      omega
    | some ch => simp [hget, hch ch (List.get?_mem hget)]
  · rw [if_neg hi]
    cases hget : b.data.get? 0 with
    | none =>
      rw [List.get?_eq_none] at hget
      omega
    | some ch => simp [hget, hch ch (List.get?_mem hget)]

lemma sourceChannelData_eq (b : AudioBuffer) (i : ℕ) :
    sourceChannelData b i = channelData b (if i < b.numberOfChannels then i else 0) := by
  unfold sourceChannelData
  by_cases hi : i < b.numberOfChannels
  · rw [if_pos hi, if_pos hi]
  · rw [if_neg hi, if_neg hi]

/-- Claim C1 (counterexample): at sample `-1/4` the encoder scales by `32767`
(yielding `-8191`), while the claim's negative-branch scaling by `32768`
would yield `-8192`; the precedence of `0.5 + sample < 0` tests
`sample < -0.5`, not `sample < 0`. -/
theorem C1_counterexample :
    sampleToPCM (-1/4) = -8191 ∧ sampleToPCMClaimed (-1/4) = -8192 ∧
    sampleToPCM (-1/4) ≠ sampleToPCMClaimed (-1/4) := by
  have hclamp : max (-1 : ℚ) (min 1 (-1/4)) = -1/4 := by norm_num [min_def, max_def]
  have h1 : sampleToPCM (-1/4) = -8191 := by
    unfold sampleToPCM truncToInt
    rw [hclamp]
    norm_num
  have h2 : sampleToPCMClaimed (-1/4) = -8192 := by
    unfold sampleToPCMClaimed truncToInt
    rw [hclamp]
    norm_num
  exact ⟨h1, h2, by rw [h1, h2]; decide⟩

/-- Claim C1 (amended): the PCM encoder clamps each sample to `[-1, 1]`,
scales by `32768` when the clamped sample is less than `-1/2` and by `32767`
otherwise, then truncates toward zero. -/
theorem C1_holds : ∀ s : ℚ, sampleToPCM s = sampleToPCMAmended s := by
  intro s
  unfold sampleToPCM sampleToPCMAmended
  have h : (1/2 + max (-1) (min 1 s) < 0) ↔ (max (-1) (min 1 s) < -(1/2)) := by
    constructor <;> intro h <;> linarith
  by_cases hc : max (-1) (min 1 s) < -(1/2)
  · rw [if_pos (h.mpr hc), if_pos hc]
  · rw [if_neg (fun hx => hc (h.mp hx)), if_neg hc]

/-- Claim C2 (counterexample): for the one-sample buffer `[0]` at width `2`,
column `1`'s window lies entirely past the end of the buffer, and the code
leaves the scan's initial values `(1, -1)` there, not the prior sample's
value `(0, 0)` as the claim states. -/
theorem C2_counterexample :
    (waveformPeaks [0] 2).get? 1 = some (1, -1) ∧
    ((1 : ℚ), (-1 : ℚ)) ≠ ((0 : ℚ), (0 : ℚ)) := by
  refine ⟨by decide, by decide⟩

/-- Claim C2 (amended): for every buffer with samples in `[-1, 1]` and every
positive pixel width, column `i` of the peak reduction summarizes exactly the
samples of window `[i*step, (i+1)*step)` that exist in the buffer, with
`step = ceil(frameCount / width)`: its first component is the least and a
member, its second the greatest and a member; a column whose window lies
entirely past the end of the buffer holds the scan's initial values `(1, -1)`
rather than the prior sample's value. -/
theorem C2_holds (data : List ℚ) (width : ℕ) (hw : 0 < width)
    (hb : ∀ x ∈ data, -1 ≤ x ∧ x ≤ 1) (i : ℕ) (hi : i < width) :
    (waveformPeaks data width).get? i =
      some (peakColumn data ((data.length + width - 1) / width) i) ∧
    (peakWindow data width i = [] →
      peakColumn data ((data.length + width - 1) / width) i = (1, -1)) ∧
    (peakWindow data width i ≠ [] →
      (peakColumn data ((data.length + width - 1) / width) i).1 ∈ peakWindow data width i ∧
      (peakColumn data ((data.length + width - 1) / width) i).2 ∈ peakWindow data width i ∧
      ∀ x ∈ peakWindow data width i,
        (peakColumn data ((data.length + width - 1) / width) i).1 ≤ x ∧
        x ≤ (peakColumn data ((data.length + width - 1) / width) i).2) := by
  have h1 : (waveformPeaks data width).get? i =
      some (peakColumn data ((data.length + width - 1) / width) i) := by
    unfold waveformPeaks
    rw [List.get?_map, List.get?_range hi]
    rfl
  have hcol : peakColumn data ((data.length + width - 1) / width) i =
      windowFold (peakWindow data width i) (1, -1) := by
    unfold peakColumn peakWindow
    exact range_foldl_peakStep data (i * ((data.length + width - 1) / width))
      ((data.length + width - 1) / width) (1, -1)
  have hsub : ∀ x ∈ peakWindow data width i, x ∈ data := by
    intro x hx
    unfold peakWindow at hx
    exact List.drop_subset _ _ (List.take_subset _ _ hx)
  refine ⟨h1, ?_, ?_⟩
  · intro hempty
    rw [hcol, hempty]
    rfl
  · intro hne
    obtain ⟨y, hy⟩ := List.exists_mem_of_ne_nil _ hne
    obtain ⟨hminmem, hminle, hminall⟩ := foldl_minStep_spec (peakWindow data width i) 1
    obtain ⟨hmaxmem, hmaxle, hmaxall⟩ := foldl_maxStep_spec (peakWindow data width i) (-1)
    have hfst : (peakColumn data ((data.length + width - 1) / width) i).1 =
        (peakWindow data width i).foldl (fun m d => if d < m then d else m) 1 := by
      rw [hcol, windowFold_fst]
    have hsnd : (peakColumn data ((data.length + width - 1) / width) i).2 =
        (peakWindow data width i).foldl (fun m d => if d > m then d else m) (-1) := by
      rw [hcol, windowFold_snd]
    refine ⟨?_, ?_, ?_⟩
    · rw [hfst]
      rcases hminmem with h | h
      · have hy1 : y ≤ 1 := (hb y (hsub y hy)).2
        have : y = 1 := le_antisymm hy1 (h ▸ hminall y hy)
        rw [h, ← this]
        exact hy
      · exact h
    · rw [hsnd]
      rcases hmaxmem with h | h
      · have hy1 : -1 ≤ y := (hb y (hsub y hy)).1
        have : y = -1 := le_antisymm (h ▸ hmaxall y hy) hy1
        rw [h, ← this]
        exact hy
      · exact h
    · intro x hx
      rw [hfst, hsnd]
      exact ⟨hminall x hx, hmaxall x hx⟩

/-- Witness for C2: concrete instance at buffer `[0]`, width `2`, column `0`. -/
theorem C2_witness :
    (waveformPeaks [0] 2).get? 0 = some (peakColumn [0] 1 0) :=
  (C2_holds [0] 2 (by decide) (by decide) 0 (by decide)).1

/-- Claim C3: for `0 ≤ start`, `end ≤ duration`, `end - start ≥ 0.1`, the
slice keeps the source's sample rate and channel count, its frame count is
within one sample of `round((end-start)*sampleRate)`, and each output frame
`j` of each channel equals source frame `floor(start*sampleRate) + j`. -/
theorem C3_holds (b : AudioBuffer) (s e : ℚ) (hsr : 0 < b.sampleRate)
    (hs : 0 ≤ s) (he : e ≤ (b.length : ℚ) / (b.sampleRate : ℚ))
    (hgap : 1/10 ≤ e - s) :
    (sliceAudioBuffer b s e).sampleRate = b.sampleRate ∧
    (sliceAudioBuffer b s e).numberOfChannels = b.numberOfChannels ∧
    |((sliceAudioBuffer b s e).length : ℤ) - round ((e - s) * (b.sampleRate : ℚ))| ≤ 1 ∧
    ∀ c : ℕ, c < b.numberOfChannels → ∀ j : ℕ,
      (j : ℤ) < ⌊e * (b.sampleRate : ℚ)⌋ - ⌊s * (b.sampleRate : ℚ)⌋ →
      getSample (sliceAudioBuffer b s e) c (j : ℤ) =
        getSample b c (⌊s * (b.sampleRate : ℚ)⌋ + (j : ℤ)) := by
  have hmul : (e - s) * (b.sampleRate : ℚ) =
      e * (b.sampleRate : ℚ) - s * (b.sampleRate : ℚ) := by ring
  by_cases hfc : ⌊e * (b.sampleRate : ℚ)⌋ - ⌊s * (b.sampleRate : ℚ)⌋ ≤ 0
  · have hsr' : (0 : ℚ) < (b.sampleRate : ℚ) := by exact_mod_cast hsr
    have hq0 : (0 : ℚ) ≤ (e - s) * (b.sampleRate : ℚ) := by
      apply mul_nonneg (by linarith) (le_of_lt hsr')
    have hround0 : 0 ≤ round ((e - s) * (b.sampleRate : ℚ)) := by
      rw [round_eq]
      exact Int.le_floor.mpr (by push_cast; linarith)
    have hlt1 : (e - s) * (b.sampleRate : ℚ) < 1 := by
      have hA2 := Int.lt_floor_add_one (e * (b.sampleRate : ℚ))
      have hB1 := Int.floor_le (s * (b.sampleRate : ℚ))
      have hcast : ((⌊e * (b.sampleRate : ℚ)⌋ : ℤ) : ℚ) ≤
          ((⌊s * (b.sampleRate : ℚ)⌋ : ℤ) : ℚ) := by exact_mod_cast (by omega : ⌊e * (b.sampleRate : ℚ)⌋ ≤ ⌊s * (b.sampleRate : ℚ)⌋)
      rw [hmul]
      linarith
    have hround1 : round ((e - s) * (b.sampleRate : ℚ)) ≤ 1 := by
      rw [round_eq]
      have : ⌊(e - s) * (b.sampleRate : ℚ) + 1/2⌋ < 2 :=
        Int.floor_lt.mpr (by push_cast; linarith)
      omega
    unfold sliceAudioBuffer
    rw [if_pos hfc]
    refine ⟨rfl, rfl, ?_, ?_⟩
    · show |((1 : ℕ) : ℤ) - round ((e - s) * (b.sampleRate : ℚ))| ≤ 1
      rw [abs_le]
      omega
    · intro c hc j hj
      omega
  · have hpos : 0 < ⌊e * (b.sampleRate : ℚ)⌋ - ⌊s * (b.sampleRate : ℚ)⌋ := by omega
    refine ⟨?_, ?_, ?_, ?_⟩
    · unfold sliceAudioBuffer
      rw [if_neg hfc]
    · unfold sliceAudioBuffer
      rw [if_neg hfc]
    · have hlen : ((sliceAudioBuffer b s e).length : ℤ) =
          ⌊e * (b.sampleRate : ℚ)⌋ - ⌊s * (b.sampleRate : ℚ)⌋ := by
        unfold sliceAudioBuffer
        rw [if_neg hfc]
        exact Int.toNat_of_nonneg (le_of_lt hpos)
      rw [hlen, hmul]
      exact floor_diff_round_le (e * (b.sampleRate : ℚ)) (s * (b.sampleRate : ℚ))
    · intro c hc j hj
      exact slice_read b s e c j hc hj

/-- Witness for C3: a 1-channel, 30-frame, 10 Hz buffer sliced on `[1/2, 2]`. -/
theorem C3_witness :
    (1 : ℚ)/10 ≤ 2 - 1/2 ∧
    (sliceAudioBuffer ⟨1, 30, 10, [List.replicate 30 0]⟩ (1/2) 2).sampleRate = 10 :=
  ⟨by norm_num,
   (C3_holds ⟨1, 30, 10, [List.replicate 30 0]⟩ (1/2) 2 (by decide) (by norm_num)
     (by norm_num) (by norm_num)).1⟩

/-- Claim C5: the slice never fails: a non-positive computed frame count
yields the 1-frame all-silent buffer at the source's rate and channel count,
and any copied frame index outside the source's length reads as silence. -/
theorem C5_holds (b : AudioBuffer) (s e : ℚ) (hwf : WF b) :
    (⌊e * (b.sampleRate : ℚ)⌋ - ⌊s * (b.sampleRate : ℚ)⌋ ≤ 0 →
      sliceAudioBuffer b s e = createBuffer b.numberOfChannels 1 b.sampleRate ∧
      (sliceAudioBuffer b s e).length = 1 ∧
      ∀ c : ℕ, ∀ j : ℤ, getSample (sliceAudioBuffer b s e) c j = 0) ∧
    (∀ c : ℕ, c < b.numberOfChannels → ∀ j : ℕ,
      (j : ℤ) < ⌊e * (b.sampleRate : ℚ)⌋ - ⌊s * (b.sampleRate : ℚ)⌋ →
      ¬ (0 ≤ ⌊s * (b.sampleRate : ℚ)⌋ + (j : ℤ) ∧
         ⌊s * (b.sampleRate : ℚ)⌋ + (j : ℤ) < (b.length : ℤ)) →
      getSample (sliceAudioBuffer b s e) c (j : ℤ) = 0) := by
  constructor
  · intro hfc
    have heq : sliceAudioBuffer b s e = createBuffer b.numberOfChannels 1 b.sampleRate := by
      unfold sliceAudioBuffer
      rw [if_pos hfc]
    refine ⟨heq, by rw [heq]; rfl, ?_⟩
    intro c j
    rw [heq]
    exact getSample_createBuffer b.numberOfChannels 1 b.sampleRate c j
  · intro c hc j hj hout
    rw [slice_read b s e c j hc hj]
    exact getSample_out_of_range b hwf c _ hout

/-- Witness for C5: a collapsed selection `[1/2, 1/2]` on a 3-frame buffer
falls back to the 1-frame silent buffer. -/
theorem C5_witness :
    sliceAudioBuffer ⟨1, 3, 10, [[0, 0, 0]]⟩ (1/2) (1/2) = createBuffer 1 1 10 :=
  ((C5_holds ⟨1, 3, 10, [[0, 0, 0]]⟩ (1/2) (1/2) (by decide)).1 (by norm_num)).1

/-- Claim C4: joining the empty list yields the 1-frame, 1-channel, 44100 Hz
fallback; joining a non-empty list of well-formed buffers yields the first
input's sample rate, the summed frame count, the maximal channel count, and
each output channel `i` holds, consecutively and in order, channel `i` of
each input that has it and channel `0` of each input that does not. -/
theorem C4_holds (b0 : AudioBuffer) (rest : List AudioBuffer)
    (hwf : ∀ b ∈ b0 :: rest, WF b) :
    joinAudioBuffers [] = createBuffer 1 1 44100 ∧
    (joinAudioBuffers (b0 :: rest)).sampleRate = b0.sampleRate ∧
    (joinAudioBuffers (b0 :: rest)).length = ((b0 :: rest).map (fun b => b.length)).sum ∧
    (∀ b ∈ b0 :: rest, b.numberOfChannels ≤ (joinAudioBuffers (b0 :: rest)).numberOfChannels) ∧
    (joinAudioBuffers (b0 :: rest)).numberOfChannels ∈
      (b0 :: rest).map (fun b => b.numberOfChannels) ∧
    ∀ i : ℕ, i < (joinAudioBuffers (b0 :: rest)).numberOfChannels →
      ∀ k : ℕ, ∀ hk : k < (b0 :: rest).length, ∀ j : ℕ,
        j < ((b0 :: rest).get ⟨k, hk⟩).length →
        getSample (joinAudioBuffers (b0 :: rest)) i
            ((offsetBefore (b0 :: rest) k + j : ℕ) : ℤ) =
          getSample ((b0 :: rest).get ⟨k, hk⟩)
            (if i < ((b0 :: rest).get ⟨k, hk⟩).numberOfChannels then i else 0) (j : ℤ) := by
  refine ⟨rfl, rfl, rfl, ?_, ?_, ?_⟩
  · intro b hb
    exact (foldl_max_spec ((b0 :: rest).map (fun b => b.numberOfChannels)) 0).2.2
      b.numberOfChannels (List.mem_map_of_mem _ hb)
  · obtain ⟨hmem, hle, hall⟩ :=
      foldl_max_spec ((b0 :: rest).map (fun b => b.numberOfChannels)) 0
    show ((b0 :: rest).map (fun b => b.numberOfChannels)).foldl max 0 ∈
      (b0 :: rest).map (fun b => b.numberOfChannels)
    rcases hmem with h | h
    · have hb0 : b0.numberOfChannels ≤
          ((b0 :: rest).map (fun b => b.numberOfChannels)).foldl max 0 :=
        hall _ (List.mem_map_of_mem _ (List.mem_cons_self b0 rest))
      rw [h] at hb0 ⊢
      have hz : b0.numberOfChannels = 0 := Nat.le_zero.mp hb0
      rw [← hz]
      exact List.mem_map_of_mem _ (List.mem_cons_self b0 rest)
    · exact h
  · intro i hi k hk j hj
    have hi' : i < ((b0 :: rest).map (fun b => b.numberOfChannels)).foldl max 0 := hi
    have hkL : k < ((b0 :: rest).map (fun b => sourceChannelData b i)).length := by
      rw [List.length_map]
      exact hk
    have hwfk : WF ((b0 :: rest).get ⟨k, hk⟩) :=
      hwf _ (List.get_mem (b0 :: rest) k hk)
    have hLk : ((b0 :: rest).map (fun b => sourceChannelData b i)).get ⟨k, hkL⟩ =
        sourceChannelData ((b0 :: rest).get ⟨k, hk⟩) i := List.get_map _
    have hjL : j < (((b0 :: rest).map (fun b => sourceChannelData b i)).get ⟨k, hkL⟩).length := by
      rw [hLk, sourceChannelData_length _ hwfk]
      exact hj
    have hoff : ((((b0 :: rest).map (fun b => sourceChannelData b i)).take k).map
        List.length).sum = offsetBefore (b0 :: rest) k := by
      rw [← List.map_take, List.map_map]
      unfold offsetBefore
      apply congrArg
      apply List.map_congr_left
      intro b hb
      exact sourceChannelData_length b (hwf b (List.take_subset _ _ hb)) i
    have hdata : (joinAudioBuffers (b0 :: rest)).data.get? i =
        some (((b0 :: rest).map (fun b => sourceChannelData b i)).join) := by
      show ((List.range (((b0 :: rest).map (fun b => b.numberOfChannels)).foldl max 0)).map
        (fun i => ((b0 :: rest).map (fun b => sourceChannelData b i)).join)).get? i = _
      rw [List.get?_map, List.get?_range hi']
      rfl
    have hlhs : getSample (joinAudioBuffers (b0 :: rest)) i
        ((offsetBefore (b0 :: rest) k + j : ℕ) : ℤ) =
        ((sourceChannelData ((b0 :: rest).get ⟨k, hk⟩) i).get? j).getD 0 := by
      unfold getSample channelData
      rw [if_neg (not_lt.mpr (Int.natCast_nonneg _)), Int.toNat_natCast, hdata]
      simp only [Option.getD_some]
      rw [← hoff, join_get?_at _ k hkL j hjL, hLk]
    have hrhs : getSample ((b0 :: rest).get ⟨k, hk⟩)
        (if i < ((b0 :: rest).get ⟨k, hk⟩).numberOfChannels then i else 0) (j : ℤ) =
        ((sourceChannelData ((b0 :: rest).get ⟨k, hk⟩) i).get? j).getD 0 := by
      unfold getSample
      rw [if_neg (not_lt.mpr (Int.natCast_nonneg _)), Int.toNat_natCast,
        ← sourceChannelData_eq]
    rw [hlhs, hrhs]

/-- Witness for C4: a stereo 2-frame buffer joined with a mono 1-frame buffer,
both at 44100 Hz. -/
theorem C4_witness :
    (joinAudioBuffers
      [⟨2, 2, 44100, [[0, 0], [0, 0]]⟩, ⟨1, 1, 44100, [[0]]⟩]).sampleRate = 44100 :=
  (C4_holds ⟨2, 2, 44100, [[0, 0], [0, 0]]⟩ [⟨1, 1, 44100, [[0]]⟩] (by decide)).2.1

/-- Claim C8: joining a singleton list of one well-formed buffer returns that
buffer unchanged: same channel count, frame count, sample rate, and samples. -/
theorem C8_holds (A : AudioBuffer) (hwf : WF A) : joinAudioBuffers [A] = A := by
  cases A with
  | mk nc ln sr dt =>
    obtain ⟨hlen, hch, hpos⟩ := hwf
    have hmax : (([AudioBuffer.mk nc ln sr dt].map
        (fun b => b.numberOfChannels)).foldl max 0) = nc := by
      simp [Nat.zero_max]
    unfold joinAudioBuffers
    simp only [AudioBuffer.mk.injEq]
    refine ⟨hmax, by simp, trivial, ?_⟩
    rw [hmax]
    apply List.ext_get?
    intro n
    rw [List.get?_map]
    by_cases hn : n < nc
    · rw [List.get?_range hn]
      have hlen' : n < dt.length := by
        simp only at hlen
        omega
      cases hget : dt.get? n with
      | none =>
        rw [List.get?_eq_none] at hget
        omega
      | some ch =>
        rw [List.get?_eq_getElem?] at hget
        simp [sourceChannelData, channelData, hn, hget]
    · have h1 : (List.range nc).get? n = none := by
        rw [List.get?_eq_none, List.length_range]
        omega
      have h2 : dt.get? n = none := by
        rw [List.get?_eq_none]
        simp only at hlen
        omega
      rw [h1, h2]
      rfl

/-- Witness for C8: a concrete stereo 3-frame buffer. -/
theorem C8_witness :
    joinAudioBuffers [⟨2, 3, 44100, [[1, 0, 1], [0, 1, 0]]⟩] =
      ⟨2, 3, 44100, [[1, 0, 1], [0, 1, 0]]⟩ :=
  C8_holds ⟨2, 3, 44100, [[1, 0, 1], [0, 1, 0]]⟩ (by decide)

/-- Claim C6: dragging the start handle resolves to exactly
`min(max(0, t), end - 0.1)` and leaves the end boundary unmoved; the end
handle resolves to `max(min(duration, t), start + 0.1)` and leaves the start
boundary unmoved; pointer times past the opposite boundary clamp exactly. -/
theorem C6_holds (duration : ℚ) (sel : Selection) (t : ℚ)
    (h0 : 0 ≤ sel.start) (hgap : sel.start + 1/10 ≤ sel.endT) (hd : sel.endT ≤ duration) :
    (handlePointerMove duration sel DragTarget.startHandle t).start =
      min (max 0 t) (sel.endT - 1/10) ∧
    (handlePointerMove duration sel DragTarget.startHandle t).endT = sel.endT ∧
    (handlePointerMove duration sel DragTarget.endHandle t).endT =
      max (min duration t) (sel.start + 1/10) ∧
    (handlePointerMove duration sel DragTarget.endHandle t).start = sel.start ∧
    (sel.endT - 1/10 < t →
      (handlePointerMove duration sel DragTarget.startHandle t).start = sel.endT - 1/10) ∧
    (t < sel.start + 1/10 →
      (handlePointerMove duration sel DragTarget.endHandle t).endT = sel.start + 1/10) := by
  refine ⟨?_, rfl, ?_, rfl, ?_, ?_⟩
  · show (if max 0 t ≥ sel.endT - 1/10 then sel.endT - 1/10 else max 0 t) = _
    rcases le_or_lt (sel.endT - 1/10) (max 0 t) with h | h
    · rw [if_pos h, min_eq_right h]
    · rw [if_neg (not_le.mpr h), min_eq_left (le_of_lt h)]
  · show (if min duration t ≤ sel.start + 1/10 then sel.start + 1/10 else min duration t) = _
    rcases le_or_lt (min duration t) (sel.start + 1/10) with h | h
    · rw [if_pos h, max_eq_right h]
    · rw [if_neg (not_le.mpr h), max_eq_left (le_of_lt h)]
  · intro ht
    show (if max 0 t ≥ sel.endT - 1/10 then sel.endT - 1/10 else max 0 t) = _
    rw [if_pos (le_trans (le_of_lt ht) (le_max_right 0 t))]
  · intro ht
    show (if min duration t ≤ sel.start + 1/10 then sel.start + 1/10 else min duration t) = _
    rw [if_pos (le_trans (min_le_right duration t) (le_of_lt ht))]

/-- Witness for C6: selection `[1, 2]` over duration `3`, pointer at `5/2`. -/
theorem C6_witness :
    (handlePointerMove 3 ⟨1, 2⟩ DragTarget.startHandle (5/2)).start =
      min (max 0 (5/2)) ((2 : ℚ) - 1/10) :=
  (C6_holds 3 ⟨1, 2⟩ (5/2) (by norm_num) (by norm_num) (by norm_num)).1

/-- Claim C9: play from stopped keeps the cursor when it lies inside
`[selection.start, selection.end)`, resets it to `selection.start` otherwise,
and the emitted range runs from that cursor start to `selection.end`. -/
theorem C9_holds (sel : Selection) (t : ℚ) :
    (sel.start ≤ t ∧ t < sel.endT → togglePlayStart sel t = t) ∧
    (¬ (sel.start ≤ t ∧ t < sel.endT) → togglePlayStart sel t = sel.start) ∧
    playAudioRange sel (togglePlayStart sel t) = (togglePlayStart sel t, sel.endT) := by
  refine ⟨?_, ?_, ?_⟩
  · intro ⟨h1, h2⟩
    unfold togglePlayStart
    rw [if_neg]
    push_neg
    exact ⟨h2, h1⟩
  · intro h
    push_neg at h
    unfold togglePlayStart
    by_cases h1 : sel.start ≤ t
    · rw [if_pos (Or.inl (h h1))]
    · rw [if_pos (Or.inr (not_le.mp h1))]
  · have hfix : playAudioStartPos sel (togglePlayStart sel t) = togglePlayStart sel t := by
      unfold togglePlayStart playAudioStartPos
      by_cases hc : t ≥ sel.endT ∨ t < sel.start
      · rw [if_pos hc]
        by_cases hdeg : sel.start < sel.start ∨ sel.start ≥ sel.endT
        · rw [if_pos hdeg]
        · rw [if_neg hdeg]
      · rw [if_neg hc]
        push_neg at hc
        rw [if_neg]
        push_neg
        exact ⟨hc.2, hc.1⟩
    unfold playAudioRange
    rw [hfix]
    refine Prod.ext rfl ?_
    show togglePlayStart sel t + (sel.endT - togglePlayStart sel t) = sel.endT
    ring

/-- Witness for C9: selection `[0, 10]`, cursor at `5` (inside the range). -/
theorem C9_witness : togglePlayStart ⟨0, 10⟩ 5 = 5 :=
  (C9_holds ⟨0, 10⟩ 5).1 (by norm_num)

/-- Claim C7 (counterexample): a cut taken at millisecond `5` while the
registry already holds a clip with identifier `"5"` appends a duplicate
identifier; `Date.now().toString()` does not guarantee distinctness. -/
theorem C7_counterexample :
    ((handleCut [⟨"5", "a", createBuffer 1 1 10, []⟩] (createBuffer 1 1 10)
        ⟨0, 1⟩ 5 "b").map Clip.id) = ["5", "5"] ∧
    ¬ ((handleCut [⟨"5", "a", createBuffer 1 1 10, []⟩] (createBuffer 1 1 10)
        ⟨0, 1⟩ 5 "b").map Clip.id).Nodup := by
  refine ⟨by decide, by decide⟩

/-- Claim C7 (amended): a cut appends a clip whose identifier is the decimal
string of the cut's millisecond timestamp; identifiers stay pairwise distinct
across every reachable registry state provided each cut's timestamp string
differs from all identifiers already present (a strictly increasing
millisecond clock); rename and delete also preserve distinctness. -/
theorem C7_holds (clips : List Clip) (mainBuffer : AudioBuffer) (sel : Selection)
    (nowMs : ℕ) (newName : String) (someId otherName : String)
    (hnodup : (clips.map Clip.id).Nodup)
    (hfresh : toString nowMs ∉ clips.map Clip.id) :
    ((handleCut clips mainBuffer sel nowMs newName).map Clip.id).Nodup ∧
    (renameClip clips someId otherName).map Clip.id = clips.map Clip.id ∧
    ((deleteClip clips someId).map Clip.id).Nodup := by
  refine ⟨?_, ?_, ?_⟩
  · unfold handleCut
    rw [List.map_append, List.nodup_append]
    refine ⟨hnodup, List.nodup_singleton _, ?_⟩
    intro a ha hb
    simp only [List.map_cons, List.map_nil, List.mem_singleton] at hb
    rw [hb] at ha
    exact hfresh ha
  · unfold renameClip
    rw [List.map_map]
    have hcongr : ∀ c ∈ clips,
        (Clip.id ∘ fun c => if c.id = someId then { c with name := otherName } else c) c =
          Clip.id c := by
      intro c hc
      by_cases h : c.id = someId
      · simp only [Function.comp_apply, if_pos h]
      · simp only [Function.comp_apply, if_neg h]
    exact List.map_congr_left hcongr
  · unfold deleteClip
    have hsub : (clips.filter fun c => c.id != someId).Sublist clips :=
      List.filter_sublist clips
    exact List.Nodup.sublist (hsub.map Clip.id) hnodup

/-- Witness for C7: one clip with identifier `"1"`, a cut at millisecond `2`. -/
theorem C7_witness :
    ((handleCut [⟨"1", "a", createBuffer 1 1 10, []⟩] (createBuffer 1 1 10)
        ⟨0, 1⟩ 2 "n").map Clip.id).Nodup :=
  (C7_holds [⟨"1", "a", createBuffer 1 1 10, []⟩] (createBuffer 1 1 10)
    ⟨0, 1⟩ 2 "n" "x" "y" (by decide) (by decide)).1

/-- Claim C10: rename-by-identifier keeps the list length, replaces only the
name of a clip whose identifier matches (identifier, buffer, and cached blob
unchanged), leaves every non-matching clip untouched, and returns the list
unchanged when no identifier matches. -/
theorem C10_holds (clips : List Clip) (id newName : String) (k : ℕ) (c : Clip)
    (hk : clips.get? k = some c) :
    (renameClip clips id newName).length = clips.length ∧
    (c.id = id → (renameClip clips id newName).get? k =
      some { id := c.id, name := newName, buffer := c.buffer, blob := c.blob }) ∧
    (c.id ≠ id → (renameClip clips id newName).get? k = some c) ∧
    (id ∉ clips.map Clip.id → renameClip clips id newName = clips) := by
  refine ⟨?_, ?_, ?_, ?_⟩
  · unfold renameClip
    rw [List.length_map]
  · intro h
    unfold renameClip
    rw [List.get?_map, hk]
    simp only [Option.map_some']
    rw [if_pos h]
  · intro h
    unfold renameClip
    rw [List.get?_map, hk]
    simp only [Option.map_some']
    rw [if_neg h]
  · intro h
    unfold renameClip
    have hcongr : ∀ x ∈ clips,
        (if x.id = id then { x with name := newName } else x) = x := by
      intro x hx
      refine if_neg (fun he => h ?_)
      rw [← he]
      exact List.mem_map_of_mem Clip.id hx
    rw [List.map_congr_left hcongr]
    simp

/-- Witness for C10: renaming the clip with identifier `"1"`. -/
theorem C10_witness :
    (renameClip [⟨"1", "a", createBuffer 1 1 10, []⟩] "1" "z").get? 0 =
      some ⟨"1", "z", createBuffer 1 1 10, []⟩ :=
  (C10_holds [⟨"1", "a", createBuffer 1 1 10, []⟩] "1" "z" 0
    ⟨"1", "a", createBuffer 1 1 10, []⟩ rfl).2.1 rfl

